import Mathlib

/-!
Shallow embedding of `src/processing.rs` of the vxsky repository: the image
combination engine `generate_combined_thumbnail` and its helpers.

Modelling decisions, in order of importance:

* `u32` arithmetic is modelled on `ℕ` with an explicit `% 2^32` wherever the
  source can overflow (Rust release-profile wrapping semantics): the area key
  `width * height` in `find_img_with_most_pixels`, the doublings in
  `get_total_img_size`, and the running `x_offset` in `layout_horizontal`.
* Raster primitives whose pixel output is computed in floating point by the
  `image` crate (Lanczos3/Gaussian resampling, alpha blending of `overlay`,
  Gaussian `blur`, and the `f64` aspect-ratio fit of the letterbox branch of
  `scale_image_iterable`) are abstracted into a `Prims` bundle of arbitrary
  functions. Every structural fact proved below holds for every instantiation
  of `Prims`, hence in particular for the real library functions. Facts whose
  truth depends on the floating-point values themselves are out of the scope
  of this embedding. What stays concrete is everything the library documents
  structurally: output dimensions of `resize_exact`, of `overlay` (the bottom
  image is mutated in place, so its dimensions are kept), of `blur`
  (dimensions preserved), and the fully transparent canvas `new_rgba8`.
* `rayon`'s `par_iter().map(..).collect()` preserves input order, and rayon's
  `max_by_key` documents that among several maxima the latest one is
  returned; both are therefore modelled by their sequential counterparts
  (`List.map`, and a left fold whose tie goes to the later element).
* `CombinedThumbnail::new` serializes the final canvas to PNG bytes; the
  model keeps the canvas itself together with the format tag, so statements
  about the encoded output are read off the canvas it encodes. The Nat
  subtraction in the letterbox centering offsets models the source's `u32`
  subtraction; no theorem below depends on those offsets.
-/

/-- The modulus of Rust `u32` arithmetic. -/
def U32 : ℕ := 4294967296

/-- One RGBA pixel, each channel a byte in the source. -/
structure Pixel where
  r : ℕ
  g : ℕ
  b : ℕ
  a : ℕ
  deriving DecidableEq

/-- A decoded raster image: `DynamicImage` of the `image` crate, reduced to
its dimensions and its pixel content. -/
structure Image where
  width : ℕ
  height : ℕ
  pix : ℕ → ℕ → Pixel

/-- The two resampling filters the source passes to `resize_exact`. -/
inductive FilterKind where
  | lanczos3
  | gaussian
  deriving DecidableEq

/-- The error enum `ProcessingError` of `processing.rs`. -/
inductive ProcessingError where
  | emptyImageArray
  | tooManyImages
  | couldNotFindMostPixels
  | imageError
  deriving DecidableEq

/-- The output format tag passed to `CombinedThumbnail::new`. -/
inductive OutputFormat where
  | png
  deriving DecidableEq

/-- The floating-point raster primitives of the `image` crate, abstracted:
each field gives the pixel content of one library operation. The theorems
below hold for every instantiation, hence for the real library. -/
structure Prims where
  /-- Pixel content of `image.resize_exact(w, h, filter)`. -/
  resamplePix : FilterKind → Image → ℕ → ℕ → ℕ → ℕ → Pixel
  /-- Pixel content of `imageops::overlay(bottom, top, x, y)`. -/
  overlayPix : Image → Image → ℤ → ℤ → ℕ → ℕ → Pixel
  /-- Pixel content of `image.blur(sigma)`. -/
  blurPix : Image → ℚ → ℕ → ℕ → Pixel
  /-- The `f64` aspect-ratio fit of the letterbox branch:
  `(width, height, target_width, target_height) ↦ (new_width, new_height)`. -/
  fit : ℕ → ℕ → ℕ → ℕ → ℕ × ℕ

/-- `image.resize_exact(w, h, filter)`: dimensions are exactly `(w, h)`. -/
def resizeExact (P : Prims) (image : Image) (w h : ℕ) (f : FilterKind) : Image :=
  ⟨w, h, P.resamplePix f image w h⟩

/-- `imageops::overlay(bottom, top, x, y)` mutates `bottom` in place, so the
result keeps the bottom image's dimensions. -/
def overlay (P : Prims) (bottom top : Image) (x y : ℤ) : Image :=
  ⟨bottom.width, bottom.height, P.overlayPix bottom top x y⟩

/-- `DynamicImage::blur(sigma)` preserves dimensions. -/
def blur (P : Prims) (image : Image) (sigma : ℚ) : Image :=
  ⟨image.width, image.height, P.blurPix image sigma⟩

/-- `DynamicImage::new_rgba8(w, h)`: a fully transparent canvas. -/
def new_rgba8 (w h : ℕ) : Image :=
  ⟨w, h, fun _ _ => ⟨0, 0, 0, 0⟩⟩

/-- The key `img.dimensions().0 * img.dimensions().1` of
`find_img_with_most_pixels`: a `u32` product, wrapping on overflow. -/
def areaKey (image : Image) : ℕ :=
  image.width * image.height % U32

/-- Sequential model of rayon's `max_by_key` over a nonempty collection
(head `x`, tail `xs`): rayon documents that among several maxima the latest
element is returned, so a tie goes to the later element. -/
def maxByAreaLast (x : Image) (xs : List Image) : Image :=
  xs.foldl (fun acc image => if areaKey acc ≤ areaKey image then image else acc) x

/-- `find_img_with_most_pixels` of `processing.rs`. -/
def find_img_with_most_pixels (images : List Image) : Except ProcessingError Image :=
  match images with
  | [] => .error .couldNotFindMostPixels
  | x :: xs => .ok (maxByAreaLast x xs)

/-- `get_total_img_size` of `processing.rs`: the doubled dimensions are `u32`
products, wrapping on overflow. -/
def get_total_img_size (images : List Image) : Except ProcessingError (ℕ × ℕ) :=
  (find_img_with_most_pixels images).map fun max_image =>
    match images.length with
    | 1 => (max_image.width, max_image.height)
    | 2 => (max_image.width * 2 % U32, max_image.height)
    | _ => (max_image.width * 2 % U32, max_image.height * 2 % U32)

/-- Loop body of `layout_horizontal`: overlay at the running `x_offset`, then
advance it by the placed image's width (a `u32` addition). -/
def layoutStep (P : Prims) (y_offset : ℕ) (state : Image × ℕ) (image : Image) : Image × ℕ :=
  (overlay P state.1 image (state.2 : ℤ) (y_offset : ℤ), (state.2 + image.width) % U32)

/-- `layout_horizontal` of `processing.rs`: place the images side by side
starting at `x = 0`, all at the given vertical offset. -/
def layout_horizontal (P : Prims) (new_image : Image) (images : List Image) (y_offset : ℕ) : Image :=
  (images.foldl (layoutStep P y_offset) (new_image, 0)).1

/-- `scale_image_iterable` of `processing.rs`. With `pad` the image is
resized to the `f64`-computed fit `P.fit`, then centered on a transparent
canvas of exactly the target size; without `pad` it is stretched to exactly
the target size. -/
def scale_image_iterable (P : Prims) (image : Image) (target_width target_height : ℕ)
    (pad : Bool) : Image :=
  if pad then
    let nwh := P.fit image.width image.height target_width target_height
    let resized := resizeExact P image nwh.1 nwh.2 .lanczos3
    let x := (target_width - nwh.1) / 2
    let y := (target_height - nwh.2) / 2
    let new_img := new_rgba8 target_width target_height
    overlay P new_img resized (x : ℤ) (y : ℤ)
  else
    resizeExact P image target_width target_height .gaussian

/-- `scale_all_images_to_same_size` of `processing.rs`; rayon's parallel map
collects in input order, so it is an order-preserving map. -/
def scale_all_images_to_same_size (P : Prims) (image_array : List Image)
    (target_width target_height : ℕ) (pad : Bool) : List Image :=
  image_array.map fun image => scale_image_iterable P image target_width target_height pad

/-- `combine_images` of `processing.rs`. The arm for one scaled image mirrors
the source's (dead) `1 => return Ok(images[0].to_owned())`, and the rescale of
the third image takes the already scaled third image, exactly as the source's
`scale_all_images_to_same_size(&[scaled_images[2].to_owned()], ..)` does. -/
def combine_images (P : Prims) (images : List Image) (total_width total_height : ℕ)
    (pad : Bool) : Except ProcessingError Image :=
  match images with
  | [only] => .ok only
  | _ =>
    (find_img_with_most_pixels images).bind fun top_img =>
      let new_image := new_rgba8 total_width total_height
      let scaled_images :=
        scale_all_images_to_same_size P images top_img.width top_img.height pad
      match scaled_images with
      | [] => .error .emptyImageArray
      | [_] => .ok (images.headD (new_rgba8 0 0))
      | [s0, s1] => .ok (layout_horizontal P new_image [s0, s1] 0)
      | [s0, s1, s2] =>
        let processed_last_img :=
          scale_all_images_to_same_size P [s2] total_width top_img.height pad
        let s2p := processed_last_img.headD (new_rgba8 0 0)
        .ok (layout_horizontal P (layout_horizontal P new_image [s0, s1] 0) [s2p] s0.height)
      | [s0, s1, s2, s3] =>
        .ok (layout_horizontal P (layout_horizontal P new_image [s0, s1] 0) [s2, s3] s0.height)
      | _ => .error .tooManyImages

/-- The final product: the composed canvas together with its format tag (the
PNG byte serialization of `CombinedThumbnail::new` is abstracted; statements
about the encoded output are read off the canvas it encodes). -/
structure CombinedThumbnail where
  image : Image
  format : OutputFormat

/-- `generate_combined_thumbnail` of `processing.rs`: letterboxed foreground,
stretched background blurred with sigma `50.0`, foreground overlaid on top at
`(0, 0)`, encoded as PNG. -/
def generate_combined_thumbnail (P : Prims) (images : List Image) :
    Except ProcessingError CombinedThumbnail :=
  (get_total_img_size images).bind fun total_size =>
    (combine_images P images total_size.1 total_size.2 true).bind fun combined =>
      (combine_images P images total_size.1 total_size.2 false).map fun raw_background =>
        let background := overlay P (blur P raw_background 50) combined 0 0
        ⟨background, .png⟩

/-- Canvas-size table of spec section 4.1, with the doubled dimensions
computed in wrapping `u32` arithmetic (this is the amendment forced by the
`u32` overflow counterexample; it agrees with the table as stated whenever
the doubled dimensions fit in `u32`). -/
def specCanvasSizeWrapped (n refW refH : ℕ) : ℕ × ℕ :=
  match n with
  | 1 => (refW, refH)
  | 2 => (refW * 2 % U32, refH)
  | _ => (refW * 2 % U32, refH * 2 % U32)

/-- A trivial instantiation of the abstract raster primitives, used to
evaluate the model on concrete inputs. -/
def trivialPrims : Prims :=
  ⟨fun _ _ _ _ _ _ => ⟨0, 0, 0, 0⟩, fun _ _ _ _ _ _ => ⟨0, 0, 0, 0⟩,
   fun _ _ _ _ => ⟨0, 0, 0, 0⟩, fun _ _ _ _ => (0, 0)⟩

/-- An opaque black pixel field for concrete test images. -/
def blackPix : ℕ → ℕ → Pixel := fun _ _ => ⟨0, 0, 0, 255⟩

/-- A 65536 by 65536 image: its pixel count is exactly `2^32`, so its `u32`
area key wraps to `0`. -/
def imgSquare64k : Image := ⟨65536, 65536, blackPix⟩

/-- A one-pixel image. -/
def imgOnePixel : Image := ⟨1, 1, blackPix⟩

/-- A `2^31` by `1` image: doubling its width wraps to `0` in `u32`. -/
def imgHalfU32Wide : Image := ⟨2147483648, 1, blackPix⟩

theorem scale_image_iterable_width (P : Prims) (image : Image) (tw th : ℕ) (pad : Bool) :
    (scale_image_iterable P image tw th pad).width = tw := by
  cases pad <;> rfl

theorem scale_image_iterable_height (P : Prims) (image : Image) (tw th : ℕ) (pad : Bool) :
    (scale_image_iterable P image tw th pad).height = th := by
  cases pad <;> rfl

theorem foldl_layoutStep_width (P : Prims) (y : ℕ) (l : List Image) :
    ∀ st : Image × ℕ, ((l.foldl (layoutStep P y) st).1).width = st.1.width := by
  induction l with
  | nil => intro st; rfl
  | cons hd tl ih => intro st; simpa [layoutStep, overlay] using ih (layoutStep P y st hd)

theorem foldl_layoutStep_height (P : Prims) (y : ℕ) (l : List Image) :
    ∀ st : Image × ℕ, ((l.foldl (layoutStep P y) st).1).height = st.1.height := by
  induction l with
  | nil => intro st; rfl
  | cons hd tl ih => intro st; simpa [layoutStep, overlay] using ih (layoutStep P y st hd)

theorem layout_horizontal_width (P : Prims) (base : Image) (images : List Image) (y : ℕ) :
    (layout_horizontal P base images y).width = base.width :=
  foldl_layoutStep_width P y images (base, 0)

theorem layout_horizontal_height (P : Prims) (base : Image) (images : List Image) (y : ℕ) :
    (layout_horizontal P base images y).height = base.height :=
  foldl_layoutStep_height P y images (base, 0)

/-- C4 counterexample: on the empty collection both `combine_images` and
`generate_combined_thumbnail` fail, but with `CouldNotFindMostPixels` rather
than `EmptyImageArray`, because reference-image selection runs before the
count dispatch ever reaches its defensive `0` arm. -/
theorem c4_counterexample :
    combine_images trivialPrims [] 1 1 true = .error .couldNotFindMostPixels ∧
    generate_combined_thumbnail trivialPrims [] = .error .couldNotFindMostPixels ∧
    ProcessingError.couldNotFindMostPixels ≠ ProcessingError.emptyImageArray :=
  ⟨rfl, rfl, by decide⟩

/-- C4 (amended): for the empty input collection, `combine_images` and
`generate_combined_thumbnail` fail with the `CouldNotFindMostPixels` error. -/
theorem c4_empty_input_error (P : Prims) (tw th : ℕ) (pad : Bool) :
    combine_images P [] tw th pad = .error .couldNotFindMostPixels ∧
    generate_combined_thumbnail P [] = .error .couldNotFindMostPixels :=
  ⟨rfl, rfl⟩

/-- C5: for every input collection with more than 4 images, `combine_images`
and `generate_combined_thumbnail` fail with the `TooManyImages` error. -/
theorem c5_too_many_images (P : Prims) (images : List Image) (tw th : ℕ) (pad : Bool)
    (h : 4 < images.length) :
    combine_images P images tw th pad = .error .tooManyImages ∧
    generate_combined_thumbnail P images = .error .tooManyImages := by
  rcases images with _ | ⟨a, _ | ⟨b, _ | ⟨c, _ | ⟨d, _ | ⟨e, rest⟩⟩⟩⟩⟩
  · simp at h
  · simp at h
  · simp at h
  · simp at h
  · simp at h
  · exact ⟨rfl, rfl⟩

/-- C5 witness: five one-pixel images are rejected with `TooManyImages`. -/
theorem c5_witness :
    combine_images trivialPrims [imgOnePixel, imgOnePixel, imgOnePixel, imgOnePixel, imgOnePixel]
        1 1 true = .error .tooManyImages ∧
    generate_combined_thumbnail trivialPrims
        [imgOnePixel, imgOnePixel, imgOnePixel, imgOnePixel, imgOnePixel] =
      .error .tooManyImages :=
  c5_too_many_images trivialPrims _ 1 1 true (by decide)

/-- C6: for a single-image input, `combine_images` returns the image itself
(unscaled, uncomposited), and the final output of
`generate_combined_thumbnail` is exactly that original image alpha-overlaid
at `(0, 0)` on a blurred copy of itself, with no resizing in either layer. -/
theorem c6_single_image (P : Prims) (i : Image) (tw th : ℕ) (pad : Bool) :
    combine_images P [i] tw th pad = .ok i ∧
    generate_combined_thumbnail P [i] = .ok ⟨overlay P (blur P i 50) i 0 0, .png⟩ :=
  ⟨rfl, rfl⟩

/-- C7: for a three-image input, `combine_images` re-scales the (already
reference-scaled) third image alone to width `total_width` (the full canvas
width) and height `r.height` (the reference image's height), and places it at
`x = 0`, `y =` the height of the first scaled image, which equals the
reference height; so its placed bitmap spans the full canvas width directly
beneath the top row. -/
theorem c7_three_image_layout (P : Prims) (a b c r : Image) (tw th : ℕ) (pad : Bool)
    (hr : find_img_with_most_pixels [a, b, c] = .ok r) :
    combine_images P [a, b, c] tw th pad =
      .ok (overlay P
            (layout_horizontal P (new_rgba8 tw th)
              [scale_image_iterable P a r.width r.height pad,
               scale_image_iterable P b r.width r.height pad] 0)
            (scale_image_iterable P (scale_image_iterable P c r.width r.height pad)
              tw r.height pad)
            0 ((scale_image_iterable P a r.width r.height pad).height : ℤ)) ∧
    (scale_image_iterable P (scale_image_iterable P c r.width r.height pad)
      tw r.height pad).width = tw ∧
    (scale_image_iterable P (scale_image_iterable P c r.width r.height pad)
      tw r.height pad).height = r.height ∧
    (scale_image_iterable P a r.width r.height pad).height = r.height := by
  have hr2 : Except.ok (ε := ProcessingError) (maxByAreaLast a [b, c]) = Except.ok r := hr
  injection hr2 with hr3
  subst hr3
  exact ⟨rfl, scale_image_iterable_width .., scale_image_iterable_height ..,
    scale_image_iterable_height ..⟩

/-- C7 witness: the layout equation evaluated on three concrete images. -/
theorem c7_witness :
    combine_images trivialPrims [imgOnePixel, imgOnePixel, imgOnePixel] 2 2 true =
      .ok (overlay trivialPrims
            (layout_horizontal trivialPrims (new_rgba8 2 2)
              [scale_image_iterable trivialPrims imgOnePixel imgOnePixel.width
                 imgOnePixel.height true,
               scale_image_iterable trivialPrims imgOnePixel imgOnePixel.width
                 imgOnePixel.height true] 0)
            (scale_image_iterable trivialPrims
              (scale_image_iterable trivialPrims imgOnePixel imgOnePixel.width
                imgOnePixel.height true)
              2 imgOnePixel.height true)
            0 ((scale_image_iterable trivialPrims imgOnePixel imgOnePixel.width
                imgOnePixel.height true).height : ℤ)) ∧
    (scale_image_iterable trivialPrims
      (scale_image_iterable trivialPrims imgOnePixel imgOnePixel.width imgOnePixel.height true)
      2 imgOnePixel.height true).width = 2 ∧
    (scale_image_iterable trivialPrims
      (scale_image_iterable trivialPrims imgOnePixel imgOnePixel.width imgOnePixel.height true)
      2 imgOnePixel.height true).height = imgOnePixel.height ∧
    (scale_image_iterable trivialPrims imgOnePixel imgOnePixel.width
      imgOnePixel.height true).height = imgOnePixel.height :=
  c7_three_image_layout trivialPrims imgOnePixel imgOnePixel imgOnePixel imgOnePixel 2 2 true rfl

theorem maxByAreaLast_cons (x y : Image) (ys : List Image) :
    maxByAreaLast x (y :: ys) =
      if areaKey x ≤ areaKey y then maxByAreaLast y ys else maxByAreaLast x ys := by
  by_cases h : areaKey x ≤ areaKey y <;> simp [maxByAreaLast, h]

theorem maxByAreaLast_le (x : Image) (xs : List Image) :
    ∀ z ∈ x :: xs, areaKey z ≤ areaKey (maxByAreaLast x xs) := by
  induction xs generalizing x with
  | nil =>
    intro z hz
    rcases List.mem_singleton.mp hz with rfl
    exact Nat.le_refl _
  | cons y ys ih =>
    intro z hz
    rw [maxByAreaLast_cons]
    rcases List.mem_cons.mp hz with rfl | hz'
    · by_cases h : areaKey z ≤ areaKey y
      · rw [if_pos h]
        exact Nat.le_trans h (ih y y (List.mem_cons_self y ys))
      · rw [if_neg h]
        exact ih z z (List.mem_cons_self z ys)
    · rcases List.mem_cons.mp hz' with rfl | hz2
      · by_cases h : areaKey x ≤ areaKey z
        · rw [if_pos h]
          exact ih z z (List.mem_cons_self z ys)
        · rw [if_neg h]
          exact Nat.le_trans (Nat.le_of_lt (Nat.not_le.mp h))
            (ih x x (List.mem_cons_self x ys))
      · by_cases h : areaKey x ≤ areaKey y
        · rw [if_pos h]
          exact ih y z (List.mem_cons_of_mem y hz2)
        · rw [if_neg h]
          exact ih x z (List.mem_cons_of_mem x hz2)

theorem maxByAreaLast_split (x : Image) (xs : List Image) :
    ∃ pre post, x :: xs = pre ++ maxByAreaLast x xs :: post ∧
      ∀ z ∈ post, areaKey z < areaKey (maxByAreaLast x xs) := by
  induction xs generalizing x with
  | nil => exact ⟨[], [], rfl, by simp⟩
  | cons y ys ih =>
    rw [maxByAreaLast_cons]
    by_cases h : areaKey x ≤ areaKey y
    · rw [if_pos h]
      obtain ⟨pre, post, heq, hpost⟩ := ih y
      exact ⟨x :: pre, post, by rw [List.cons_append, ← heq], hpost⟩
    · rw [if_neg h]
      obtain ⟨pre, post, heq, hpost⟩ := ih x
      cases pre with
      | nil =>
        simp only [List.nil_append] at heq
        injection heq with hm hrest
        refine ⟨[], y :: ys, ?_, ?_⟩
        · rw [List.nil_append, ← hm]
        · intro z hz
          rcases List.mem_cons.mp hz with rfl | hz2
          · have hy := Nat.not_le.mp h
            rw [hm] at hy
            exact hy
          · exact hpost z (hrest ▸ hz2)
      | cons p pre2 =>
        simp only [List.cons_append] at heq
        injection heq with hp hrest
        refine ⟨x :: y :: pre2, post, ?_, hpost⟩
        simp only [List.cons_append]
        exact congrArg (fun l => x :: y :: l) hrest

/-- C2 (amended): `find_img_with_most_pixels` returns an image whose `u32`
area key `width * height % 2^32` is maximal, and it is the last such image in
input order (everything after it in the input has a strictly smaller key);
this coincides with the claim's true maximum of `width * height` whenever
every image's pixel count fits in `u32`. -/
theorem c2_reference_selection (images : List Image) (h : images ≠ []) :
    ∃ r pre post, find_img_with_most_pixels images = .ok r ∧
      images = pre ++ r :: post ∧
      (∀ z ∈ images, areaKey z ≤ areaKey r) ∧
      (∀ z ∈ post, areaKey z < areaKey r) := by
  match images, h with
  | x :: xs, _ =>
    obtain ⟨pre, post, heq, hpost⟩ := maxByAreaLast_split x xs
    exact ⟨maxByAreaLast x xs, pre, post, rfl, heq, maxByAreaLast_le x xs, hpost⟩

/-- C2 witness: the last-wins maximal selection evaluated on a concrete
two-image input. -/
theorem c2_witness :
    ∃ r pre post,
      find_img_with_most_pixels [imgSquare64k, imgOnePixel] = .ok r ∧
      [imgSquare64k, imgOnePixel] = pre ++ r :: post ∧
      (∀ z ∈ [imgSquare64k, imgOnePixel], areaKey z ≤ areaKey r) ∧
      (∀ z ∈ post, areaKey z < areaKey r) :=
  c2_reference_selection [imgSquare64k, imgOnePixel] (by simp)

/-- C2 counterexample: the `u32` area key of a 65536 by 65536 image wraps to
`0`, so the one-pixel image is selected even though the square image has the
strictly larger true pixel count — the claim's "maximum value of
width*height" fails on the code. -/
theorem c2_counterexample :
    find_img_with_most_pixels [imgSquare64k, imgOnePixel] = .ok imgOnePixel ∧
    imgOnePixel.width * imgOnePixel.height < imgSquare64k.width * imgSquare64k.height :=
  ⟨rfl, by decide⟩

/-- C1 counterexample: with a reference image of width `2^31` and two images,
the claim's canvas width `2 * refW = 2^32` overflows `u32`; the produced
image has width `0`. -/
theorem c1_counterexample :
    find_img_with_most_pixels [imgHalfU32Wide, imgOnePixel] = .ok imgHalfU32Wide ∧
    (generate_combined_thumbnail trivialPrims [imgHalfU32Wide, imgOnePixel]).map
        (fun t => t.image.width) = .ok 0 ∧
    (0 : ℕ) ≠ 2 * imgHalfU32Wide.width :=
  ⟨rfl, rfl, by decide⟩

/-- C1 (amended): for one to four images with reference image `r` (maximum
wrapped area, last wins), the final image of `generate_combined_thumbnail`
has exactly the dimensions of the section 4.1 table with the doubled
dimensions computed in wrapping `u32` arithmetic: `(refW, refH)` for one
image, `(refW * 2 mod 2^32, refH)` for two, and
`(refW * 2 mod 2^32, refH * 2 mod 2^32)` for three or four; this agrees with
the table as claimed whenever the doubled dimensions fit in `u32`. -/
theorem c1_canvas_size (P : Prims) (images : List Image) (r : Image)
    (h1 : 0 < images.length) (h2 : images.length ≤ 4)
    (hr : find_img_with_most_pixels images = .ok r) :
    ∃ t : CombinedThumbnail, generate_combined_thumbnail P images = .ok t ∧
      t.image.width = (specCanvasSizeWrapped images.length r.width r.height).1 ∧
      t.image.height = (specCanvasSizeWrapped images.length r.width r.height).2 := by
  rcases images with _ | ⟨a, _ | ⟨b, _ | ⟨c, _ | ⟨d, _ | ⟨e, rest⟩⟩⟩⟩⟩
  · simp at h1
  · have hr2 : Except.ok (ε := ProcessingError) (maxByAreaLast a []) = Except.ok r := hr
    injection hr2 with hr3
    subst hr3
    exact ⟨_, rfl, rfl, rfl⟩
  · have hr2 : Except.ok (ε := ProcessingError) (maxByAreaLast a [b]) = Except.ok r := hr
    injection hr2 with hr3
    subst hr3
    exact ⟨_, rfl, rfl, rfl⟩
  · have hr2 : Except.ok (ε := ProcessingError) (maxByAreaLast a [b, c]) = Except.ok r := hr
    injection hr2 with hr3
    subst hr3
    exact ⟨_, rfl, rfl, rfl⟩
  · have hr2 : Except.ok (ε := ProcessingError) (maxByAreaLast a [b, c, d]) = Except.ok r := hr
    injection hr2 with hr3
    subst hr3
    exact ⟨_, rfl, rfl, rfl⟩
  · simp only [List.length_cons] at h2
    omega

/-- C1 witness: the wrapped canvas-size table evaluated on a concrete
two-image input whose doubled reference width wraps to `0`. -/
theorem c1_witness :
    ∃ t : CombinedThumbnail,
      generate_combined_thumbnail trivialPrims [imgHalfU32Wide, imgOnePixel] = .ok t ∧
      t.image.width = (specCanvasSizeWrapped (List.length [imgHalfU32Wide, imgOnePixel])
        imgHalfU32Wide.width imgHalfU32Wide.height).1 ∧
      t.image.height = (specCanvasSizeWrapped (List.length [imgHalfU32Wide, imgOnePixel])
        imgHalfU32Wide.width imgHalfU32Wide.height).2 :=
  c1_canvas_size trivialPrims [imgHalfU32Wide, imgOnePixel] imgHalfU32Wide (by decide)
    (by decide) rfl

/-- C3: for every valid input collection (one to four images),
`generate_combined_thumbnail` is exactly: the foreground built by
`combine_images` with `pad = true` (letterbox), the background built by
`combine_images` with `pad = false` (stretch) and blurred with the fixed
sigma `50.0`, the foreground alpha-overlaid on top of the blurred background
at `(0, 0)`, and the result tagged as PNG. -/
theorem c3_two_layer_pipeline (P : Prims) (images : List Image)
    (h1 : 0 < images.length) (h2 : images.length ≤ 4) :
    ∃ w h fg bg,
      get_total_img_size images = .ok (w, h) ∧
      combine_images P images w h true = .ok fg ∧
      combine_images P images w h false = .ok bg ∧
      generate_combined_thumbnail P images =
        .ok ⟨overlay P (blur P bg 50) fg 0 0, .png⟩ := by
  rcases images with _ | ⟨a, _ | ⟨b, _ | ⟨c, _ | ⟨d, _ | ⟨e, rest⟩⟩⟩⟩⟩
  · simp at h1
  · exact ⟨_, _, _, _, rfl, rfl, rfl, rfl⟩
  · exact ⟨_, _, _, _, rfl, rfl, rfl, rfl⟩
  · exact ⟨_, _, _, _, rfl, rfl, rfl, rfl⟩
  · exact ⟨_, _, _, _, rfl, rfl, rfl, rfl⟩
  · simp only [List.length_cons] at h2
    omega

/-- C3 witness: the two-layer pipeline evaluated on a concrete single-image
input. -/
theorem c3_witness :
    ∃ w h fg bg,
      get_total_img_size [imgOnePixel] = .ok (w, h) ∧
      combine_images trivialPrims [imgOnePixel] w h true = .ok fg ∧
      combine_images trivialPrims [imgOnePixel] w h false = .ok bg ∧
      generate_combined_thumbnail trivialPrims [imgOnePixel] =
        .ok ⟨overlay trivialPrims (blur trivialPrims bg 50) fg 0 0, .png⟩ :=
  c3_two_layer_pipeline trivialPrims [imgOnePixel] (by decide) (by decide)
